import Mathlib

/-!
Verification of the metaschema language server's core against its source:
the in-memory virtual file system (`src/memfs.ts`), the workspace
synchronizer / ensure pipelines and URI utilities
(`src/service/metaschema-lang-service.ts`), and the JSON-RPC request
dispatcher (`registerLanguageHandler`).  Each TypeScript function is
shallowly embedded as an executable Lean definition; theorems settle the
specification's testable properties.
-/

/-! ## JavaScript `Map` model

JS `Map` objects preserve insertion order: `set` updates an existing key
in place or appends a new entry, `delete` removes the entry, `get`
returns the stored value or `undefined`.  We model a map as an
association list with unique-key operations. -/

abbrev JSMap (κ α : Type) : Type := List (κ × α)

namespace JSMap

variable {κ α : Type} [DecidableEq κ]

def empty : JSMap κ α := []

def get? : JSMap κ α → κ → Option α
  | [], _ => none
  | (k', v) :: rest, k => if k' = k then some v else get? rest k

/-- `Map.prototype.has` -/
def hasKey (m : JSMap κ α) (k : κ) : Bool := (m.get? k).isSome

/-- `Map.prototype.set`: update in place if the key exists, else append. -/
def set : JSMap κ α → κ → α → JSMap κ α
  | [], k, v => [(k, v)]
  | (k', v') :: rest, k, v =>
      if k' = k then (k, v) :: rest else (k', v') :: set rest k v

/-- `Map.prototype.delete` -/
def delete : JSMap κ α → κ → JSMap κ α
  | [], _ => []
  | (k', v') :: rest, k =>
      if k' = k then delete rest k else (k', v') :: delete rest k

end JSMap

/-! ## String helpers (JS `String.prototype` methods used by the source) -/

/-- Does `pat` occur as a contiguous subsequence of `l`?
Models `String.prototype.includes` at the character-list level. -/
def listContainsSeq (pat : List Char) : List Char → Bool
  | [] => pat.isEmpty
  | c :: rest => pat.isPrefixOf (c :: rest) || listContainsSeq pat rest

/-- JS `s.includes(pat)` -/
def strIncludes (s pat : String) : Bool := listContainsSeq pat.data s.data

/-- JS regex test `/suffix$/` on `s` for a literal `suffix`. -/
def strEndsWith (s suffix : String) : Bool := suffix.data.isSuffixOf s.data

/-- JS `s.startsWith(pat)` -/
def strStartsWith (s pat : String) : Bool := pat.data.isPrefixOf s.data

/-! ## `src/util.ts` (bundled in `src/service/metaschema-lang-service.ts`):
URI/path conversion and file-kind predicates -/

/-- Characters JS `encodeURIComponent` leaves unescaped:
alphanumerics and `- _ . ! ~ * ' ( )`. -/
def isUriUnreserved (c : Char) : Bool :=
  c.isAlphanum || c = '-' || c = '_' || c = '.' || c = '!' || c = '~' ||
  c = '*' || c = Char.ofNat 39 || c = '(' || c = ')'

/-- Uppercase hexadecimal digit for `n < 16`. -/
def hexDigit (n : Nat) : Char :=
  if n < 10 then Char.ofNat (48 + n) else Char.ofNat (55 + n)

/-- Numeric value of a hexadecimal digit character, if it is one. -/
def hexVal? (c : Char) : Option Nat :=
  if 48 ≤ c.toNat ∧ c.toNat ≤ 57 then some (c.toNat - 48)
  else if 65 ≤ c.toNat ∧ c.toNat ≤ 70 then some (c.toNat - 55)
  else if 97 ≤ c.toNat ∧ c.toNat ≤ 102 then some (c.toNat - 87)
  else none

/-- JS `encodeURIComponent` on a character list.  Modeled for the ASCII
range (code points above `0x7F` would additionally be split into UTF-8
bytes by JS; the embedded call sites only receive ASCII). -/
def encodeChars : List Char → List Char
  | [] => []
  | c :: rest =>
      if isUriUnreserved c then c :: encodeChars rest
      else '%' :: hexDigit (c.toNat / 16 % 16) :: hexDigit (c.toNat % 16) :: encodeChars rest

/-- JS `decodeURIComponent` on a character list, modeled for ASCII
percent-sequences (JS additionally reassembles UTF-8 byte sequences and
throws `URIError` on malformed input; neither occurs at the embedded
call sites, where a malformed `%` is kept literally). -/
def decodeChars : List Char → List Char
  | [] => []
  | '%' :: a :: b :: rest =>
      match hexVal? a, hexVal? b with
      | some x, some y => Char.ofNat (16 * x + y) :: decodeChars rest
      | _, _ => '%' :: a :: b :: decodeChars rest
  | c :: rest => c :: decodeChars rest

def encodeURIComponent (s : String) : String := String.mk (encodeChars s.data)

def decodeURIComponent (s : String) : String := String.mk (decodeChars s.data)

/-- The two fields of Node's `url.parse` result that `uri2path` and
`normalizeUri` consult. -/
structure UrlParts where
  protocol : Option String
  pathname : Option String

/-- Characters allowed in a URL scheme after the leading letter. -/
def protoChar (c : Char) : Bool := c.isAlphanum || c = '+' || c = '-' || c = '.'

/-- Parses a leading `scheme:` (lowercased, colon included), returning the
scheme and the remainder, as Node's `url.parse` does. -/
def parseProtocol (l : List Char) : Option (List Char × List Char) :=
  match l with
  | [] => none
  | c :: _ =>
      if c.isAlpha then
        match l.dropWhile protoChar with
        | ':' :: rest => some ((l.takeWhile protoChar).map Char.toLower ++ [':'], rest)
        | _ => none
      else none

/-- Cuts a path at the query or fragment delimiter. -/
def takeUntilQueryOrHash (l : List Char) : List Char :=
  l.takeWhile (fun c => !(c = '?' || c = '#'))

/-- Model of Node's `url.parse` restricted to the `protocol` and
`pathname` fields, for the `scheme://host/path` and plain-path shapes the
server passes in. -/
def urlParse (uri : String) : UrlParts :=
  match parseProtocol uri.data with
  | none =>
      let p := takeUntilQueryOrHash uri.data
      { protocol := none, pathname := if p.isEmpty then none else some (String.mk p) }
  | some (proto, rest) =>
      match rest with
      | '/' :: '/' :: rest' =>
          let afterHost := rest'.dropWhile (fun c => !(c = '/' || c = '?' || c = '#'))
          let p := takeUntilQueryOrHash afterHost
          { protocol := some (String.mk proto),
            pathname := if p.isEmpty then none else some (String.mk p) }
      | _ =>
          let p := takeUntilQueryOrHash rest
          { protocol := some (String.mk proto),
            pathname := if p.isEmpty then none else some (String.mk p) }

/-- JS regex test `/^(?:[a-z]:)?[\\\/]/i` used by `path2uri`. -/
def isAbsolutePath (path : String) : Bool :=
  match path.data with
  | [] => false
  | c :: rest =>
      (c = '/' || c = '\\') ||
      (c.isAlpha && (match rest with
        | ':' :: c2 :: _ => c2 = '/' || c2 = '\\'
        | _ => false))

/-- JS `path.split(/[\\\/]/)`: splits on every slash, keeping empty
segments, and yields `[""]` for the empty string. -/
def splitOnSlashes : List Char → List (List Char)
  | [] => [[]]
  | c :: rest =>
      if c = '/' || c = '\\' then [] :: splitOnSlashes rest
      else
        match splitOnSlashes rest with
        | part :: parts => (c :: part) :: parts
        | [] => [[c]]

/-- JS `Array.prototype.join('/')`. -/
def joinWithSlash : List (List Char) → List Char
  | [] => []
  | [p] => p
  | p :: rest => p ++ '/' :: joinWithSlash rest

/-- `path2uri` from `util.ts`: converts an absolute path to a `file://`
URI, throwing (modeled as `Except.error`) on a non-absolute path. -/
def path2uri (path : String) : Except String String :=
  if !isAbsolutePath path then
    Except.error (path ++ " is not an absolute path")
  else
    match splitOnSlashes path.data with
    | [] => Except.error (path ++ " is not an absolute path")
    | head :: parts =>
        let headChars := if head.isEmpty then encodeChars head else '/' :: head
        Except.ok ("file://" ++ String.mk headChars ++ "/" ++
          String.mk (joinWithSlash (parts.map encodeChars)))

/-- JS regex test `/^\/[a-z]:\//i` used by `uri2path` to detect a Windows
drive-letter pathname. -/
def isWindowsDrivePathname (s : String) : Bool :=
  match s.data with
  | '/' :: c :: ':' :: '/' :: _ => c.isAlpha
  | _ => false

/-- `uri2path` from `util.ts`: converts a `file://` URI to an absolute
path, throwing (modeled as `Except.error`) on a non-file URI. -/
def uri2path (uri : String) : Except String String :=
  let parts := urlParse uri
  if parts.protocol ≠ some "file:" then
    Except.error ("Cannot resolve non-file uri to path: " ++ uri)
  else
    let filePath := parts.pathname.getD ""
    let filePath :=
      if isWindowsDrivePathname filePath then
        String.mk ((filePath.data.drop 1).map (fun c => if c = '/' then '\\' else c))
      else filePath
    Except.ok (decodeURIComponent filePath)

/-- `isSchemaFile`: JS regex test `/\.schema$/`. -/
def isSchemaFile (filePath : String) : Bool := strEndsWith filePath ".schema"

/-- `isMetaschemaFile`: `filePath.includes('/metaschema/schemas')`. -/
def isMetaschemaFile (filePath : String) : Bool :=
  strIncludes filePath "/metaschema/schemas"

/-- `isPackageJsonFile`: JS regex test `/(^|\/)package\.json$/`. -/
def isPackageJsonFile (filename : String) : Bool :=
  filename = "package.json" || strEndsWith filename "/package.json"

/-! ## Ensure-pipeline filter predicates
(`ProjectManager.ensureBasicFiles` / `ensureOwnFiles` / `ensureAllFiles`) -/

/-- The `filter` lambda of `ensureBasicFiles`. -/
def basicFilesFilter (uri : String) : Bool := isMetaschemaFile uri && isSchemaFile uri

/-- The `filter` lambda of `ensureOwnFiles`. -/
def ownFilesFilter (uri : String) : Bool :=
  (!(strIncludes uri "/node_modules/") && isSchemaFile uri) || isPackageJsonFile uri

/-- The `filter` lambda of `ensureAllFiles`. -/
def allFilesFilter (uri : String) : Bool := isSchemaFile uri || isPackageJsonFile uri

/-! ## `src/memfs.ts`: the in-memory file system -/

/-- `FileSystemNode` from `memfs.ts`: a directory-tree node, either a
folder or a file, with named children. -/
inductive FileSystemNode where
  | mk (file : Bool) (children : List (String × FileSystemNode))

def FileSystemNode.file : FileSystemNode → Bool
  | .mk f _ => f

def FileSystemNode.children : FileSystemNode → JSMap String FileSystemNode
  | .mk _ c => c

/-- The directory-tree insertion loop of `InMemoryFileSystem.add`: walks
the path components, creating missing folder nodes for intermediate
components and a file node for a missing final component, descending
into existing nodes. -/
def insertComponents (node : FileSystemNode) : List String → FileSystemNode
  | [] => node
  | [c] =>
      match node.children.get? c with
      | none => .mk node.file (node.children.set c (.mk true JSMap.empty))
      | some _ => node
  | c :: c' :: rest =>
      match node.children.get? c with
      | none =>
          .mk node.file
            (node.children.set c (insertComponents (.mk false JSMap.empty) (c' :: rest)))
      | some n => .mk node.file (node.children.set c (insertComponents n (c' :: rest)))

/-- `InMemoryFileSystem` state: the editor overlay, the content cache
(`files`, mapping URI to content-or-`undefined`), the construction-time
file filter, and the directory-tree root.  The logger and the
case-sensitivity flag carry no modeled behavior; the `add` event
emission has no listener-visible effect in the verified properties. -/
structure InMemoryFileSystem where
  overlay : JSMap String String
  files : JSMap String (Option String)
  fileFilter : String → Bool
  rootNode : FileSystemNode

namespace InMemoryFileSystem

/-- `uris()`: all URIs known to exist (content loaded or not). -/
def uris (fs : InMemoryFileSystem) : List String := fs.files.map (·.1)

/-- `add(uri, content?)`.  State effects of the source in order: the
filter veto, the guarded `files.set` (never clobbering existing content
with an absent value), and the directory-tree insertion.  The source's
`uri2path` call can throw for a non-file URI; the exception leaves the
already-performed `files` mutation in place, so the state on that path
keeps the new `files` and skips only the tree update (the propagated
exception itself is not observed by any verified property). -/
def add (fs : InMemoryFileSystem) (uri : String) (content : Option String) :
    InMemoryFileSystem :=
  if !fs.fileFilter uri then fs
  else
    let files :=
      if content.isSome || !(fs.files.hasKey uri) then fs.files.set uri content
      else fs.files
    match uri2path uri with
    | Except.error _ => { fs with files := files }
    | Except.ok filePath =>
        let components :=
          (splitOnSlashes filePath.data).filterMap fun c =>
            if c.isEmpty then none else some (String.mk c)
        { fs with files := files, rootNode := insertComponents fs.rootNode components }

/-- `fileExists(path)`: true if the overlay or the cache knows the URI
corresponding to `path`; `path2uri` throws on a non-absolute path. -/
def fileExists (fs : InMemoryFileSystem) (path : String) : Except String Bool :=
  (path2uri path).map fun uri => fs.overlay.hasKey uri || fs.files.hasKey uri

/-- `has(uri)`: known to exist in the cache, or provable via
`fileExists` (whose `uri2path` conversion can throw). -/
def has (fs : InMemoryFileSystem) (uri : String) : Except String Bool :=
  if fs.files.hasKey uri then Except.ok true
  else (uri2path uri).bind fun path => fs.fileExists path

/-- `getContent(uri)`: overlay first, then cache; throws if neither has
content. -/
def getContent (fs : InMemoryFileSystem) (uri : String) : Except String String :=
  let content :=
    match fs.overlay.get? uri with
    | some c => some c
    | none => (fs.files.get? uri).bind id
  match content with
  | none => Except.error ("Content of " ++ uri ++ " is not available in memory")
  | some c => Except.ok c

/-- `readFileIfExists(path)`: overlay then cache for the URI of `path`;
`none` when no content is available.  The `path2uri` throw for a
non-absolute path propagates. -/
def readFileIfExists (fs : InMemoryFileSystem) (path : String) :
    Except String (Option String) :=
  (path2uri path).map fun uri =>
    match fs.overlay.get? uri with
    | some c => some c
    | none => (fs.files.get? uri).bind id

/-- `readFile(path)`: `readFileIfExists`, with a logged warning and `''`
when no content is available.  An exception thrown inside
`readFileIfExists` is not caught. -/
def readFile (fs : InMemoryFileSystem) (path : String) : Except String String :=
  (fs.readFileIfExists path).map fun content =>
    match content with
    | none => ""
    | some c => c

/-- True exactly when `readFile` takes its warning-and-empty-string
fallback branch. -/
def readFileWarns (fs : InMemoryFileSystem) (path : String) : Bool :=
  match fs.readFileIfExists path with
  | Except.ok none => true
  | _ => false

/-- `didClose(uri)`: drops the overlay entry. -/
def didClose (fs : InMemoryFileSystem) (uri : String) : InMemoryFileSystem :=
  { fs with overlay := fs.overlay.delete uri }

/-- `didSave(uri)`: promotes overlay content into the cache via `add`
(a no-op when no overlay entry exists). -/
def didSave (fs : InMemoryFileSystem) (uri : String) : InMemoryFileSystem :=
  match fs.overlay.get? uri with
  | some content => fs.add uri (some content)
  | none => fs

/-- `didChange(uri, text)`: writes the overlay entry. -/
def didChange (fs : InMemoryFileSystem) (uri : String) (text : String) :
    InMemoryFileSystem :=
  { fs with overlay := fs.overlay.set uri text }

end InMemoryFileSystem

/-- A new `InMemoryFileSystem` view over the same content cache (the
fresh-read construction of the specification's testable property): the
overlay is empty, the cache and configuration are shared. -/
def freshView (fs : InMemoryFileSystem) : InMemoryFileSystem :=
  { overlay := JSMap.empty, files := fs.files, fileFilter := fs.fileFilter,
    rootNode := fs.rootNode }

/-! ## `ProjectManager` (in `src/service/metaschema-lang-service.ts`):
editor lifecycle methods and memoized ensure pipelines -/

/-- The `ProjectManager` state touched by the editor lifecycle methods:
the in-memory file system, the per-URI version counters, and the log of
`this.service.updateFile(path)` invocations made on the language-indexer
collaborator (the collaborator itself is external; its interface is the
sequence of calls). -/
structure ProjectManager where
  inMemoryFs : InMemoryFileSystem
  versions : JSMap String Nat
  updateFileCalls : List String

namespace ProjectManager

/-- `didChange(uri, text)`: converts the URI (a throw propagates, before
any mutation), writes the overlay, increments the per-URI version
(`versions.get(uri) || 0`, then `++version`), and re-indexes through
`service.updateFile`. -/
def didChange (pm : ProjectManager) (uri text : String) :
    Except String ProjectManager :=
  (uri2path uri).map fun filePath =>
    { pm with
      inMemoryFs := pm.inMemoryFs.didChange uri text,
      versions := pm.versions.set uri ((pm.versions.get? uri).getD 0 + 1),
      updateFileCalls := pm.updateFileCalls ++ [filePath] }

/-- `didOpen(uri, text)`: delegates to `didChange`. -/
def didOpen (pm : ProjectManager) (uri text : String) :
    Except String ProjectManager :=
  pm.didChange uri text

/-- `didClose(uri)`: converts the URI, drops the overlay entry,
increments the per-URI version, and re-indexes. -/
def didClose (pm : ProjectManager) (uri : String) :
    Except String ProjectManager :=
  (uri2path uri).map fun filePath =>
    { pm with
      inMemoryFs := pm.inMemoryFs.didClose uri,
      versions := pm.versions.set uri ((pm.versions.get? uri).getD 0 + 1),
      updateFileCalls := pm.updateFileCalls ++ [filePath] }

/-- `didSave(uri)`: delegates to the file system's `didSave` only. -/
def didSave (pm : ProjectManager) (uri : String) : ProjectManager :=
  { pm with inMemoryFs := pm.inMemoryFs.didSave uri }

end ProjectManager

/-- The `ProjectManager` fields that memoize the three ensure pipelines
(`ensuredAllFiles` / `ensuredOwnFiles` / `ensuredBasicFiles`), with a
pipeline represented by the identity of the underlying shared
computation: building the observable chain and keeping it in the slot
starts one computation; `startedPipelines` logs each computation ever
started. -/
structure PipelineCache where
  ensuredAllFiles : Option Nat
  ensuredOwnFiles : Option Nat
  ensuredBasicFiles : Option Nat
  nextPipelineId : Nat
  startedPipelines : List Nat

namespace PipelineCache

/-- `ensureOwnFiles()`: returns the memoized pipeline when the slot is
filled; otherwise builds the pipeline, stores it in the slot and returns
it. -/
def ensureOwnFiles (c : PipelineCache) : Nat × PipelineCache :=
  match c.ensuredOwnFiles with
  | some h => (h, c)
  | none =>
      let h := c.nextPipelineId
      (h, { c with
            ensuredOwnFiles := some h,
            nextPipelineId := h + 1,
            startedPipelines := c.startedPipelines ++ [h] })

/-- The error callback inside `ensureOwnFiles`'s `.do(...)`: logs and
resets the cache slot (`this.ensuredOwnFiles = undefined`). -/
def ownFilesError (c : PipelineCache) : PipelineCache :=
  { c with ensuredOwnFiles := none }

/-- `invalidateModuleStructure()`: clears all three memoized slots. -/
def invalidateModuleStructure (c : PipelineCache) : PipelineCache :=
  { c with ensuredAllFiles := none, ensuredOwnFiles := none,
           ensuredBasicFiles := none }

end PipelineCache

/-- The `updater.ensure(uri)` invocations one run of the own-files
pipeline performs: the currently-known URIs, filtered by the pipeline's
predicate, each passed to `mergeMap(uri => this.updater.ensure(uri))`
exactly once. -/
def ownEnsureCalls (uris : List String) : List String :=
  uris.filter ownFilesFilter

/-! ## The request dispatcher (`registerLanguageHandler`) -/

/-- `ErrorCodes.RequestCancelled` from `vscode-jsonrpc`. -/
def requestCancelledCode : Int := -32800

/-- A message the dispatcher writes through the `MessageWriter`:
a `$/partialResult` notification, a final success response, or an error
response.  `π` is the patch-operation type (`Operation` from
`fast-json-patch`), `ρ` the accumulated JSON result type. -/
inductive OutMsg (π ρ : Type) where
  | partialResult (id : Nat) (patch : List π)
  | response (id : Nat) (result : ρ)
  | errorResponse (id : Nat) (code : Int) (message : String)

/-- The request id a written message belongs to. -/
def OutMsg.msgId {π ρ : Type} : OutMsg π ρ → Nat
  | .partialResult i _ => i
  | .response i _ => i
  | .errorResponse i _ _ => i

/-- The entry the pending-request table keeps for one in-flight request:
the patch operations its observable has not yet emitted and the current
value of the `reduce(applyReducer, null)` accumulator. -/
structure PendingRequest (π ρ : Type) where
  remaining : List π
  acc : ρ

/-- Dispatcher state: the `subscriptions` pending-request table, the
ordered log of messages written to the `MessageWriter`, the ordered log
of `logger.warn` calls, and the `streaming` capability flag recorded at
`initialize`. -/
structure DispatcherState (π ρ : Type) where
  subscriptions : JSMap Nat (PendingRequest π ρ)
  output : List (OutMsg π ρ)
  warnings : List String
  streaming : Bool

/-- The dispatcher-relevant events: arrival of a request message whose
handler returns an observable that will emit `patches` and complete,
arrival of a `$/cancelRequest`, and one asynchronous emission step of a
pending request's observable. -/
inductive DispatchEvent (π : Type) where
  | recvRequest (id : Nat) (patches : List π)
  | recvCancel (id : Nat)
  | tick (id : Nat)

/-- One dispatcher step.  `applyReducer` and `seed` are the
`fast-json-patch` reducer and the `null` seed of
`reduce<Operation, any>(applyReducer, null)`; the dispatcher only folds
with them, so they are parameters.

* `recvRequest`: the handler's return value is adapted to an observable,
  subscribed, and the subscription stored in the pending table keyed by
  the message id; nothing is emitted yet for an asynchronous observable.
* `recvCancel`: a missing entry logs a warning and does nothing else; a
  live entry is unsubscribed, removed, and answered with exactly one
  `Request cancelled` error response.
* `tick` on a pending entry: the next patch is written as a
  `$/partialResult` notification when `streaming` is set and folded into
  the accumulator; with no patch left the observable completes, the
  accumulated result is written as the final response and the table
  entry is removed (the `finally`/`process.nextTick` cleanup).  A `tick`
  for an unsubscribed id emits nothing. -/
def processEvent {π ρ : Type} (applyReducer : ρ → π → ρ) (seed : ρ)
    (s : DispatcherState π ρ) : DispatchEvent π → DispatcherState π ρ
  | .recvRequest id patches =>
      { s with subscriptions := s.subscriptions.set id ⟨patches, seed⟩ }
  | .recvCancel id =>
      match s.subscriptions.get? id with
      | none =>
          { s with warnings := s.warnings ++
              ["$/cancelRequest for unknown request ID " ++ toString id] }
      | some _ =>
          { s with
            subscriptions := s.subscriptions.delete id,
            output := s.output ++
              [.errorResponse id requestCancelledCode "Request cancelled"] }
  | .tick id =>
      match s.subscriptions.get? id with
      | none => s
      | some pr =>
          match pr.remaining with
          | [] =>
              { s with
                subscriptions := s.subscriptions.delete id,
                output := s.output ++ [.response id pr.acc] }
          | p :: rest =>
              { s with
                subscriptions := s.subscriptions.set id ⟨rest, applyReducer pr.acc p⟩,
                output := s.output ++
                  (if s.streaming then [.partialResult id [p]] else []) }

/-- Runs a sequence of dispatcher events. -/
def runEvents {π ρ : Type} (applyReducer : ρ → π → ρ) (seed : ρ) :
    DispatcherState π ρ → List (DispatchEvent π) → DispatcherState π ρ
  | s, [] => s
  | s, e :: evts => runEvents applyReducer seed (processEvent applyReducer seed s e) evts

/-- The messages in `out` written for request id `id`. -/
def outputsFor {π ρ : Type} (id : Nat) (out : List (OutMsg π ρ)) : List (OutMsg π ρ) :=
  out.filter (fun m => m.msgId == id)

/-- A concrete `InMemoryFileSystem` over a given content cache: empty
overlay, accept-all file filter, empty directory tree.  Used to
instantiate the verified properties. -/
def mkFS (files : JSMap String (Option String)) : InMemoryFileSystem :=
  { overlay := JSMap.empty, files := files, fileFilter := (fun _ => true),
    rootNode := .mk false JSMap.empty }

/-! ## Map lemmas -/

namespace JSMap

variable {κ α : Type} [DecidableEq κ]

theorem get?_set_self (m : JSMap κ α) (k : κ) (v : α) :
    (m.set k v).get? k = some v := by
  induction m with
  | nil => simp [set, get?]
  | cons hd tl ih =>
      by_cases h : hd.1 = k
      · simp [set, get?, h]
      · simp [set, get?, h, ih]

theorem get?_set_ne (m : JSMap κ α) (k k' : κ) (v : α) (h : k' ≠ k) :
    (m.set k v).get? k' = m.get? k' := by
  induction m with
  | nil => simp [set, get?, Ne.symm h]
  | cons hd tl ih =>
      obtain ⟨k0, v0⟩ := hd
      by_cases hk : k0 = k
      · subst hk
        simp [set, get?, Ne.symm h]
      · by_cases hk' : k0 = k'
        · subst hk'
          simp [set, get?, h]
        · simp [set, get?, hk, hk', ih]

theorem hasKey_set_self (m : JSMap κ α) (k : κ) (v : α) :
    (m.set k v).hasKey k = true := by
  simp [hasKey, get?_set_self]

theorem get?_delete_self (m : JSMap κ α) (k : κ) :
    (m.delete k).get? k = none := by
  induction m with
  | nil => simp [delete, get?]
  | cons hd tl ih =>
      by_cases h : hd.1 = k
      · simp [delete, h, ih]
      · simp [delete, get?, h, ih]

theorem get?_delete_ne (m : JSMap κ α) (k k' : κ) (h : k' ≠ k) :
    (m.delete k).get? k' = m.get? k' := by
  induction m with
  | nil => simp [delete]
  | cons hd tl ih =>
      obtain ⟨k0, v0⟩ := hd
      by_cases hk : k0 = k
      · subst hk
        simp [delete, get?, Ne.symm h, ih]
      · simp [delete, get?, hk, ih]

end JSMap

/-! ## Helper lemmas about `InMemoryFileSystem.add` -/

theorem add_files_eq (fs : InMemoryFileSystem) (uri : String) (content : Option String) :
    (fs.add uri content).files =
      (if fs.fileFilter uri then
        (if content.isSome || !(fs.files.hasKey uri) then fs.files.set uri content
         else fs.files)
       else fs.files) := by
  unfold InMemoryFileSystem.add
  by_cases h : fs.fileFilter uri
  · simp only [h, Bool.not_true, Bool.false_eq_true, if_false, if_true]
    cases uri2path uri <;> simp
  · simp [h]

theorem add_fileFilter_eq (fs : InMemoryFileSystem) (uri : String) (content : Option String) :
    (fs.add uri content).fileFilter = fs.fileFilter := by
  unfold InMemoryFileSystem.add
  by_cases h : fs.fileFilter uri
  · simp only [h, Bool.not_true, Bool.false_eq_true, if_false, if_true]
    cases uri2path uri <;> simp
  · simp [h]

theorem add_overlay_eq (fs : InMemoryFileSystem) (uri : String) (content : Option String) :
    (fs.add uri content).overlay = fs.overlay := by
  unfold InMemoryFileSystem.add
  by_cases h : fs.fileFilter uri
  · simp only [h, Bool.not_true, Bool.false_eq_true, if_false, if_true]
    cases uri2path uri <;> simp
  · simp [h]

/-- C2: for every file system accepting `uri`, `add(uri)` with no
content, then `add(uri, "X")`, then `add(uri)` with no content leaves
the content cache holding `"X"` for `uri`: an add without content never
overwrites previously cached content. -/
theorem add_absent_never_overwrites (fs : InMemoryFileSystem) (uri : String)
    (h : fs.fileFilter uri = true) :
    (((fs.add uri none).add uri (some "X")).add uri none).files.get? uri
      = some (some "X") := by
  have h1 : (fs.add uri none).fileFilter uri = true := by
    rw [add_fileFilter_eq]; exact h
  have h2 : ((fs.add uri none).add uri (some "X")).fileFilter uri = true := by
    rw [add_fileFilter_eq, add_fileFilter_eq]; exact h
  have hmid : ((fs.add uri none).add uri (some "X")).files.get? uri = some (some "X") := by
    rw [add_files_eq, h1]
    simp [JSMap.get?_set_self]
  rw [add_files_eq, h2]
  have hk : ((fs.add uri none).add uri (some "X")).files.hasKey uri = true := by
    simp [JSMap.hasKey, hmid]
  simp [hk, hmid]

/-- C2 witness: the add sequence on a concrete empty file system. -/
theorem add_absent_never_overwrites_witness :
    ((mkFS JSMap.empty).fileFilter "file:///m/a.schema" = true) ∧
    (((((mkFS JSMap.empty).add "file:///m/a.schema" none).add
        "file:///m/a.schema" (some "X")).add
        "file:///m/a.schema" none).files.get? "file:///m/a.schema"
      = some (some "X")) :=
  ⟨rfl, add_absent_never_overwrites (mkFS JSMap.empty) "file:///m/a.schema" rfl⟩

/-- C3 counterexample: the bare URI `node_modules/x/y.schema` IS accepted
by the own-files pipeline's filter predicate, because the predicate
excludes only URIs containing the substring `/node_modules/` with a
leading slash, which this string lacks — refuting the claim that this
URI is never included in the "own" fetch set. -/
theorem ownFilter_includes_bare_node_modules :
    ownFilesFilter "node_modules/x/y.schema" = true := by decide

/-- C3 (amended): an absolute URI under a dependency directory, which
contains `/node_modules/`, is excluded by the own and basic filter
predicates and included by the all filter predicate; the bare string
`node_modules/x/y.schema` is still excluded by basic and included by
all, but own's `/node_modules/` substring test does not exclude it. -/
theorem node_modules_filters_amended :
    ownFilesFilter "file:///proj/node_modules/x/y.schema" = false ∧
    basicFilesFilter "file:///proj/node_modules/x/y.schema" = false ∧
    allFilesFilter "file:///proj/node_modules/x/y.schema" = true ∧
    basicFilesFilter "node_modules/x/y.schema" = false ∧
    allFilesFilter "node_modules/x/y.schema" = true := by decide

/-- C7: after `didChange(uri, "A")` the overlay takes precedence: both
`getContent` and `readFile` return `"A"` whatever the cache holds; after
`didClose(uri)` reads fall back to the cached value, `getContent`
failing when no cached content exists and `readFile` returning `""`. -/
theorem overlay_precedence (fs : InMemoryFileSystem) (uri filePath : String)
    (h1 : uri2path uri = Except.ok filePath)
    (h2 : path2uri filePath = Except.ok uri) :
    ((fs.didChange uri "A").getContent uri = Except.ok "A") ∧
    ((fs.didChange uri "A").readFile filePath = Except.ok "A") ∧
    (((fs.didChange uri "A").didClose uri).getContent uri =
      (match (fs.files.get? uri).bind id with
       | some c => Except.ok c
       | none => Except.error ("Content of " ++ uri ++ " is not available in memory"))) ∧
    (((fs.didChange uri "A").didClose uri).readFile filePath =
      Except.ok (((fs.files.get? uri).bind id).getD "")) := by
  refine ⟨?_, ?_, ?_, ?_⟩
  · simp [InMemoryFileSystem.getContent, InMemoryFileSystem.didChange,
          JSMap.get?_set_self]
  · simp [InMemoryFileSystem.readFile, InMemoryFileSystem.readFileIfExists,
          InMemoryFileSystem.didChange, h2, Except.map, JSMap.get?_set_self]
  · simp only [InMemoryFileSystem.getContent, InMemoryFileSystem.didClose,
          InMemoryFileSystem.didChange, JSMap.get?_delete_self]
    cases hc : (fs.files.get? uri).bind id <;> simp [hc]
  · simp only [InMemoryFileSystem.readFile, InMemoryFileSystem.readFileIfExists,
          InMemoryFileSystem.didClose, InMemoryFileSystem.didChange, h2,
          Except.map, JSMap.get?_delete_self]
    cases hc : (fs.files.get? uri).bind id <;> simp [hc]

/-- C7 witness: the overlay/close sequence on a concrete file system
whose cache holds `"Z"` for the URI. -/
theorem overlay_precedence_witness :
    (uri2path "file:///m/a.schema" = Except.ok "/m/a.schema") ∧
    (path2uri "/m/a.schema" = Except.ok "file:///m/a.schema") ∧
    (((mkFS [("file:///m/a.schema", some "Z")]).didChange
        "file:///m/a.schema" "A").getContent "file:///m/a.schema" = Except.ok "A") ∧
    ((((mkFS [("file:///m/a.schema", some "Z")]).didChange
        "file:///m/a.schema" "A").didClose "file:///m/a.schema").getContent
        "file:///m/a.schema" = Except.ok "Z") := by
  have h := overlay_precedence (mkFS [("file:///m/a.schema", some "Z")])
    "file:///m/a.schema" "/m/a.schema" rfl rfl
  exact ⟨rfl, rfl, h.1, by simpa using h.2.2.1⟩

/-- C8: `didSave(uri)` after `didChange(uri, "B")` persists `"B"` into
the content cache, so a fresh `InMemoryFileSystem` view over the same
cache (bypassing the overlay) observes `"B"`. -/
theorem didSave_persists_overlay (fs : InMemoryFileSystem) (uri : String)
    (h : fs.fileFilter uri = true) :
    (((fs.didChange uri "B").didSave uri).files.get? uri = some (some "B")) ∧
    ((freshView ((fs.didChange uri "B").didSave uri)).getContent uri
      = Except.ok "B") := by
  have hov : (fs.didChange uri "B").overlay.get? uri = some "B" := by
    simp [InMemoryFileSystem.didChange, JSMap.get?_set_self]
  have hsave : (fs.didChange uri "B").didSave uri
      = (fs.didChange uri "B").add uri (some "B") := by
    unfold InMemoryFileSystem.didSave
    rw [hov]
  have hfilter : (fs.didChange uri "B").fileFilter uri = true := h
  have hfiles : ((fs.didChange uri "B").add uri (some "B")).files.get? uri
      = some (some "B") := by
    rw [add_files_eq, hfilter]
    simp [JSMap.get?_set_self]
  refine ⟨by rw [hsave]; exact hfiles, ?_⟩
  rw [hsave]
  simp [freshView, InMemoryFileSystem.getContent, JSMap.get?, JSMap.empty, hfiles]

/-- C8 witness: the change/save sequence at a concrete URI. -/
theorem didSave_persists_overlay_witness :
    ((mkFS JSMap.empty).fileFilter "file:///m/a.schema" = true) ∧
    ((freshView (((mkFS JSMap.empty).didChange "file:///m/a.schema" "B").didSave
        "file:///m/a.schema")).getContent "file:///m/a.schema" = Except.ok "B") :=
  ⟨rfl, (didSave_persists_overlay (mkFS JSMap.empty) "file:///m/a.schema" rfl).2⟩

/-- C9: `readFile` is NOT total: for a relative path — which the
function's own doc comment says is accepted — the `path2uri` conversion
inside `readFileIfExists` throws `"... is not an absolute path"` and
`readFile` does not catch it, instead of logging a warning and returning
`""`. -/
theorem readFile_throws_on_relative_path (fs : InMemoryFileSystem) :
    fs.readFile "relative.schema" =
      Except.error "relative.schema is not an absolute path" := by
  have h : path2uri "relative.schema" =
      Except.error "relative.schema is not an absolute path" := rfl
  simp [InMemoryFileSystem.readFile, InMemoryFileSystem.readFileIfExists, h,
        Except.map]

/-- C10: overlay writes bypass the construction-time file filter: on a
file system whose filter rejects `uri` (so `add` is vetoed and records
nothing), `didChange(uri, text)` still makes `has(uri)` and
`fileExists(uri2path(uri))` true and `getContent(uri)` return `text`. -/
theorem overlay_bypasses_filter (fs : InMemoryFileSystem) (uri filePath text : String)
    (hf : fs.fileFilter uri = false)
    (h1 : uri2path uri = Except.ok filePath)
    (h2 : path2uri filePath = Except.ok uri) :
    (∀ content, fs.add uri content = fs) ∧
    ((fs.didChange uri text).has uri = Except.ok true) ∧
    ((fs.didChange uri text).fileExists filePath = Except.ok true) ∧
    ((fs.didChange uri text).getContent uri = Except.ok text) := by
  have hex : (fs.didChange uri text).fileExists filePath = Except.ok true := by
    simp [InMemoryFileSystem.fileExists, InMemoryFileSystem.didChange, h2,
          Except.map, JSMap.hasKey, JSMap.get?_set_self]
  refine ⟨?_, ?_, hex, ?_⟩
  · intro content
    unfold InMemoryFileSystem.add
    simp [hf]
  · unfold InMemoryFileSystem.has
    by_cases hk : (fs.didChange uri text).files.hasKey uri
    · simp [hk]
    · simp only [hk, Bool.false_eq_true, if_false]
      have : (fs.didChange uri text).files = fs.files := rfl
      rw [h1]
      simpa [Except.bind] using hex
  · simp [InMemoryFileSystem.getContent, InMemoryFileSystem.didChange,
          JSMap.get?_set_self]

/-- C10 witness: a filter rejecting everything, with a concrete URI. -/
theorem overlay_bypasses_filter_witness :
    (({ overlay := JSMap.empty, files := JSMap.empty,
        fileFilter := (fun _ => false),
        rootNode := .mk false JSMap.empty } : InMemoryFileSystem).fileFilter
        "file:///m/a.schema" = false) ∧
    (uri2path "file:///m/a.schema" = Except.ok "/m/a.schema") ∧
    ((({ overlay := JSMap.empty, files := JSMap.empty,
         fileFilter := (fun _ => false),
         rootNode := .mk false JSMap.empty } : InMemoryFileSystem).didChange
        "file:///m/a.schema" "T").getContent "file:///m/a.schema"
      = Except.ok "T") := by
  have h := overlay_bypasses_filter
    ({ overlay := JSMap.empty, files := JSMap.empty,
       fileFilter := (fun _ => false),
       rootNode := .mk false JSMap.empty } : InMemoryFileSystem)
    "file:///m/a.schema" "/m/a.schema" "T" rfl rfl rfl
  exact ⟨rfl, rfl, h.2.2.2⟩

/-- C6 counterexample: `didSave` neither increments the per-URI version
counter nor re-indexes through `updateFile`.  On a concrete
`ProjectManager` whose overlay holds content for the URI (so the save is
not vacuous: the cache receives the content), `didSave` leaves the
version map empty and the `updateFile` call log empty, refuting the
claim that all four lifecycle operations bump the version and
re-index. -/
theorem didSave_no_version_bump :
    (({ inMemoryFs :=
          { overlay := [("file:///m/a.schema", "B")], files := JSMap.empty,
            fileFilter := (fun _ => true), rootNode := .mk false JSMap.empty },
        versions := JSMap.empty,
        updateFileCalls := [] } : ProjectManager).didSave
        "file:///m/a.schema").versions = JSMap.empty ∧
    (({ inMemoryFs :=
          { overlay := [("file:///m/a.schema", "B")], files := JSMap.empty,
            fileFilter := (fun _ => true), rootNode := .mk false JSMap.empty },
        versions := JSMap.empty,
        updateFileCalls := [] } : ProjectManager).didSave
        "file:///m/a.schema").updateFileCalls = [] ∧
    (({ inMemoryFs :=
          { overlay := [("file:///m/a.schema", "B")], files := JSMap.empty,
            fileFilter := (fun _ => true), rootNode := .mk false JSMap.empty },
        versions := JSMap.empty,
        updateFileCalls := [] } : ProjectManager).didSave
        "file:///m/a.schema").inMemoryFs.files.get? "file:///m/a.schema"
      = some (some "B") := by
  refine ⟨rfl, rfl, rfl⟩

/-- C6 (amended): `didOpen`, `didChange` and `didClose` mutate the
virtual file system, increment the per-URI version counter by exactly
one (so the counter is strictly increasing across these calls), and
re-index the file through the indexer's `updateFile`; `didSave` only
persists the overlay into the cache through the file system's
`didSave`, leaving the version counter and the index untouched. -/
theorem lifecycle_methods_amended (pm : ProjectManager) (uri text filePath : String)
    (h : uri2path uri = Except.ok filePath) :
    (∃ pm', pm.didChange uri text = Except.ok pm' ∧
       pm'.inMemoryFs = pm.inMemoryFs.didChange uri text ∧
       pm'.versions.get? uri = some ((pm.versions.get? uri).getD 0 + 1) ∧
       pm'.updateFileCalls = pm.updateFileCalls ++ [filePath]) ∧
    (pm.didOpen uri text = pm.didChange uri text) ∧
    (∃ pm', pm.didClose uri = Except.ok pm' ∧
       pm'.inMemoryFs = pm.inMemoryFs.didClose uri ∧
       pm'.versions.get? uri = some ((pm.versions.get? uri).getD 0 + 1) ∧
       pm'.updateFileCalls = pm.updateFileCalls ++ [filePath]) ∧
    ((pm.didSave uri).inMemoryFs = pm.inMemoryFs.didSave uri ∧
     (pm.didSave uri).versions = pm.versions ∧
     (pm.didSave uri).updateFileCalls = pm.updateFileCalls) := by
  refine ⟨?_, rfl, ?_, rfl, rfl, rfl⟩
  · refine ⟨{ pm with
        inMemoryFs := pm.inMemoryFs.didChange uri text,
        versions := pm.versions.set uri ((pm.versions.get? uri).getD 0 + 1),
        updateFileCalls := pm.updateFileCalls ++ [filePath] }, ?_, rfl, ?_, rfl⟩
    · unfold ProjectManager.didChange
      rw [h]
      rfl
    · simp [JSMap.get?_set_self]
  · refine ⟨{ pm with
        inMemoryFs := pm.inMemoryFs.didClose uri,
        versions := pm.versions.set uri ((pm.versions.get? uri).getD 0 + 1),
        updateFileCalls := pm.updateFileCalls ++ [filePath] }, ?_, rfl, ?_, rfl⟩
    · unfold ProjectManager.didClose
      rw [h]
      rfl
    · simp [JSMap.get?_set_self]

/-- C6 amended witness: the lifecycle methods at a concrete URI on an
empty `ProjectManager`. -/
theorem lifecycle_methods_amended_witness :
    (uri2path "file:///m/a.schema" = Except.ok "/m/a.schema") ∧
    (∃ pm', ({ inMemoryFs := mkFS JSMap.empty, versions := JSMap.empty,
               updateFileCalls := [] } : ProjectManager).didChange
        "file:///m/a.schema" "T" = Except.ok pm' ∧
      pm'.versions.get? "file:///m/a.schema" = some 1 ∧
      pm'.updateFileCalls = ["/m/a.schema"]) := by
  have h := lifecycle_methods_amended
    ({ inMemoryFs := mkFS JSMap.empty, versions := JSMap.empty,
       updateFileCalls := [] } : ProjectManager)
    "file:///m/a.schema" "T" "/m/a.schema" rfl
  obtain ⟨⟨pm', heq, _, hv, hu⟩, -, -, -⟩ := h
  exact ⟨rfl, pm', heq, by simpa using hv, by simpa using hu⟩

/-- C5: `ensureOwnFiles` is single-flight: with the slot empty, a first
call starts exactly one pipeline and a second call (before anything
resolves) returns the same memoized handle without starting another; one
pipeline run invokes the updater's `ensure` at most once per
currently-known URI; after the pipeline's error callback resets the
slot, the next call starts a fresh pipeline. -/
theorem ensureOwnFiles_single_flight (c0 : PipelineCache) (uris : List String)
    (h : c0.ensuredOwnFiles = none) (huris : uris.Nodup) :
    ((c0.ensureOwnFiles.2.ensureOwnFiles).1 = c0.ensureOwnFiles.1 ∧
     (c0.ensureOwnFiles.2.ensureOwnFiles).2 = c0.ensureOwnFiles.2) ∧
    (c0.ensureOwnFiles.2.startedPipelines
      = c0.startedPipelines ++ [c0.ensureOwnFiles.1]) ∧
    (∀ uri, (ownEnsureCalls uris).count uri ≤ 1) ∧
    ((c0.ensureOwnFiles.2.ownFilesError).ensuredOwnFiles = none ∧
     (c0.ensureOwnFiles.2.ownFilesError).ensureOwnFiles.2.startedPipelines
       = c0.ensureOwnFiles.2.startedPipelines
         ++ [(c0.ensureOwnFiles.2.ownFilesError).ensureOwnFiles.1]) := by
  have h1 : c0.ensureOwnFiles =
      (c0.nextPipelineId,
       { c0 with ensuredOwnFiles := some c0.nextPipelineId,
                 nextPipelineId := c0.nextPipelineId + 1,
                 startedPipelines := c0.startedPipelines ++ [c0.nextPipelineId] }) := by
    unfold PipelineCache.ensureOwnFiles
    rw [h]
  refine ⟨?_, ?_, ?_, ?_⟩
  · rw [h1]
    exact ⟨rfl, rfl⟩
  · rw [h1]
  · intro uri
    exact List.nodup_iff_count_le_one.mp (huris.filter _) uri
  · rw [h1]
    exact ⟨rfl, rfl⟩

/-- C5 witness: the single-flight behavior from an empty cache, with a
matching and a non-matching URI among the known URIs. -/
theorem ensureOwnFiles_single_flight_witness :
    (({ ensuredAllFiles := none, ensuredOwnFiles := none,
        ensuredBasicFiles := none, nextPipelineId := 0,
        startedPipelines := [] } : PipelineCache).ensuredOwnFiles = none) ∧
    (["file:///m/a.schema", "file:///m/node_modules/b.schema"].Nodup) ∧
    ((({ ensuredAllFiles := none, ensuredOwnFiles := none,
         ensuredBasicFiles := none, nextPipelineId := 0,
         startedPipelines := [] } : PipelineCache).ensureOwnFiles.2.ensureOwnFiles).2
      = ({ ensuredAllFiles := none, ensuredOwnFiles := none,
           ensuredBasicFiles := none, nextPipelineId := 0,
           startedPipelines := [] } : PipelineCache).ensureOwnFiles.2) ∧
    (∀ uri,
      (ownEnsureCalls ["file:///m/a.schema", "file:///m/node_modules/b.schema"]).count uri ≤ 1) := by
  have h := ensureOwnFiles_single_flight
    ({ ensuredAllFiles := none, ensuredOwnFiles := none,
       ensuredBasicFiles := none, nextPipelineId := 0,
       startedPipelines := [] } : PipelineCache)
    ["file:///m/a.schema", "file:///m/node_modules/b.schema"] rfl (by decide)
  exact ⟨rfl, by decide, h.1.2, h.2.2.1⟩

/-! ## Dispatcher lemmas -/

theorem outputsFor_append {π ρ : Type} (id : Nat) (a b : List (OutMsg π ρ)) :
    outputsFor id (a ++ b) = outputsFor id a ++ outputsFor id b := by
  simp [outputsFor, List.filter_append]

theorem outputsFor_single_ne {π ρ : Type} (id : Nat) (m : OutMsg π ρ)
    (h : m.msgId ≠ id) : outputsFor id [m] = [] := by
  simp [outputsFor, h]

theorem tick_emit_streaming {π ρ : Type} (f : ρ → π → ρ) (seed : ρ)
    (s : DispatcherState π ρ) (id : Nat) (p : π) (rest : List π) (acc : ρ)
    (hstr : s.streaming = true)
    (hq : s.subscriptions.get? id = some ⟨p :: rest, acc⟩) :
    processEvent f seed s (.tick id) =
      { s with
        subscriptions := s.subscriptions.set id ⟨rest, f acc p⟩,
        output := s.output ++ [.partialResult id [p]] } := by
  simp [processEvent, hq, hstr]

theorem tick_complete {π ρ : Type} (f : ρ → π → ρ) (seed : ρ)
    (s : DispatcherState π ρ) (id : Nat) (acc : ρ)
    (hq : s.subscriptions.get? id = some ⟨[], acc⟩) :
    processEvent f seed s (.tick id) =
      { s with
        subscriptions := s.subscriptions.delete id,
        output := s.output ++ [.response id acc] } := by
  simp [processEvent, hq]

/-- Running a pending request's observable to completion: with `n`
patches left and streaming enabled, `n + 1` emission steps write the `n`
`$/partialResult` notifications in emission order, then the final
response carrying the left fold of the reducer over the patches, and
remove the pending-table entry. -/
theorem run_request_output {π ρ : Type} (f : ρ → π → ρ) (seed : ρ) (id : Nat) :
    ∀ (patches : List π) (s : DispatcherState π ρ) (acc : ρ),
      s.streaming = true →
      s.subscriptions.get? id = some ⟨patches, acc⟩ →
      (runEvents f seed s (List.replicate (patches.length + 1) (.tick id))).output
          = s.output ++ patches.map (fun p => OutMsg.partialResult id [p])
            ++ [.response id (patches.foldl f acc)] ∧
      (runEvents f seed s
          (List.replicate (patches.length + 1) (.tick id))).subscriptions.get? id
        = none := by
  intro patches
  induction patches with
  | nil =>
      intro s acc hstr hq
      have h1 : runEvents f seed s (List.replicate (([] : List π).length + 1) (.tick id))
          = processEvent f seed s (.tick id) := rfl
      rw [h1, tick_complete f seed s id acc hq]
      exact ⟨by simp, by simp [JSMap.get?_delete_self]⟩
  | cons p rest ih =>
      intro s acc hstr hq
      have h1 : runEvents f seed s
            (List.replicate ((p :: rest).length + 1) (.tick id))
          = runEvents f seed (processEvent f seed s (.tick id))
            (List.replicate (rest.length + 1) (.tick id)) := rfl
      rw [h1, tick_emit_streaming f seed s id p rest acc hstr hq]
      obtain ⟨ho, hs⟩ := ih
        ({ s with
           subscriptions := s.subscriptions.set id ⟨rest, f acc p⟩,
           output := s.output ++ [OutMsg.partialResult id [p]] })
        (f acc p) hstr (JSMap.get?_set_self _ _ _)
      refine ⟨?_, hs⟩
      rw [ho]
      simp [List.append_assoc]

/-- C1: with streaming support declared, a request whose handler emits
the patches `P1, P2, P3` and then completes produces exactly the three
`$/partialResult` notifications in emission order followed by exactly
one final response for that id whose result is the left fold of the
JSON-Patch `applyReducer` over `[P1, P2, P3]` seeded at `null`, after
which the pending-table entry is gone. -/
theorem partial_result_ordering {π ρ : Type} (applyReducer : ρ → π → ρ)
    (seed : ρ) (s : DispatcherState π ρ) (id : Nat) (P1 P2 P3 : π)
    (hstream : s.streaming = true) :
    ((runEvents applyReducer seed s
        [.recvRequest id [P1, P2, P3], .tick id, .tick id, .tick id, .tick id]).output
      = s.output ++
        [.partialResult id [P1], .partialResult id [P2], .partialResult id [P3],
         .response id (applyReducer (applyReducer (applyReducer seed P1) P2) P3)]) ∧
    ((runEvents applyReducer seed s
        [.recvRequest id [P1, P2, P3], .tick id, .tick id, .tick id, .tick id]).subscriptions.get?
        id = none) := by
  have h0 : runEvents applyReducer seed s
        [.recvRequest id [P1, P2, P3], .tick id, .tick id, .tick id, .tick id]
      = runEvents applyReducer seed
        { s with subscriptions := s.subscriptions.set id ⟨[P1, P2, P3], seed⟩ }
        (List.replicate (([P1, P2, P3] : List π).length + 1) (.tick id)) := rfl
  have hq : ({ s with
        subscriptions := s.subscriptions.set id ⟨[P1, P2, P3], seed⟩ } :
      DispatcherState π ρ).subscriptions.get? id = some ⟨[P1, P2, P3], seed⟩ :=
    JSMap.get?_set_self _ _ _
  obtain ⟨ho, hs⟩ := run_request_output applyReducer seed id [P1, P2, P3]
    { s with subscriptions := s.subscriptions.set id ⟨[P1, P2, P3], seed⟩ }
    seed hstream hq
  rw [h0, ho]
  refine ⟨by simp, hs⟩

/-- C1 witness: a concrete request with three numeric patches on an
addition reducer, on a fresh streaming dispatcher state. -/
theorem partial_result_ordering_witness :
    (({ subscriptions := JSMap.empty, output := [], warnings := [],
        streaming := true } : DispatcherState Nat Nat).streaming = true) ∧
    ((runEvents Nat.add 0
        ({ subscriptions := JSMap.empty, output := [], warnings := [],
           streaming := true } : DispatcherState Nat Nat)
        [.recvRequest 1 [10, 20, 30], .tick 1, .tick 1, .tick 1, .tick 1]).output
      = [.partialResult 1 [10], .partialResult 1 [20], .partialResult 1 [30],
         .response 1 60]) := by
  have h := partial_result_ordering Nat.add 0
    ({ subscriptions := JSMap.empty, output := [], warnings := [],
       streaming := true } : DispatcherState Nat Nat) 1 10 20 30 rfl
  exact ⟨rfl, by simpa using h.1⟩

/-- Once a request id has no pending-table entry, no later event short of
a new request reusing that id can write any further message for it: the
unsubscribed observable emits nothing, and a repeated `$/cancelRequest`
only warns. -/
theorem outputsFor_frozen {π ρ : Type} (f : ρ → π → ρ) (seed : ρ) (id : Nat) :
    ∀ (evts : List (DispatchEvent π)) (s : DispatcherState π ρ),
      s.subscriptions.get? id = none →
      (∀ ps, DispatchEvent.recvRequest id ps ∉ evts) →
      (runEvents f seed s evts).subscriptions.get? id = none ∧
      outputsFor id (runEvents f seed s evts).output = outputsFor id s.output := by
  intro evts
  induction evts with
  | nil =>
      intro s hs _
      exact ⟨hs, rfl⟩
  | cons e evts ih =>
      intro s hs hevts
      have hevts' : ∀ ps, DispatchEvent.recvRequest id ps ∉ evts :=
        fun ps hmem => hevts ps (List.mem_cons_of_mem _ hmem)
      have hstep : (processEvent f seed s e).subscriptions.get? id = none ∧
          outputsFor id (processEvent f seed s e).output = outputsFor id s.output := by
        cases e with
        | recvRequest id2 ps =>
            have hne : id ≠ id2 := by
              intro hid
              subst hid
              exact hevts ps (List.mem_cons_self _ _)
            refine ⟨?_, rfl⟩
            simp only [processEvent]
            rw [JSMap.get?_set_ne s.subscriptions id2 id ⟨ps, seed⟩ hne]
            exact hs
        | recvCancel id2 =>
            cases hq : s.subscriptions.get? id2 with
            | none =>
                constructor
                · simpa [processEvent, hq] using hs
                · simp [processEvent, hq]
            | some pr =>
                have hne : id ≠ id2 := by
                  intro hid
                  subst hid
                  rw [hs] at hq
                  exact Option.noConfusion hq
                constructor
                · simp only [processEvent, hq]
                  rw [JSMap.get?_delete_ne s.subscriptions id2 id hne]
                  exact hs
                · simp only [processEvent, hq]
                  rw [outputsFor_append, outputsFor_single_ne]
                  · simp
                  · simpa [OutMsg.msgId] using Ne.symm hne
        | tick id2 =>
            by_cases hid : id2 = id
            · subst hid
              constructor
              · simpa [processEvent, hs] using hs
              · simp [processEvent, hs]
            · cases hq : s.subscriptions.get? id2 with
              | none =>
                  constructor
                  · simpa [processEvent, hq] using hs
                  · simp [processEvent, hq]
              | some pr =>
                  cases hr : pr.remaining with
                  | nil =>
                      constructor
                      · simp only [processEvent, hq, hr]
                        rw [JSMap.get?_delete_ne s.subscriptions id2 id (Ne.symm hid)]
                        exact hs
                      · simp only [processEvent, hq, hr]
                        rw [outputsFor_append, outputsFor_single_ne]
                        · simp
                        · simpa [OutMsg.msgId] using hid
                  | cons p rest =>
                      constructor
                      · simp only [processEvent, hq, hr]
                        rw [JSMap.get?_set_ne s.subscriptions id2 id _ (Ne.symm hid)]
                        exact hs
                      · simp only [processEvent, hq, hr]
                        rw [outputsFor_append]
                        by_cases hstr : s.streaming
                        · rw [if_pos hstr, outputsFor_single_ne]
                          · simp
                          · simpa [OutMsg.msgId] using hid
                        · rw [if_neg hstr]
                          simp [outputsFor]
      have hrun : runEvents f seed s (e :: evts)
          = runEvents f seed (processEvent f seed s e) evts := rfl
      rw [hrun]
      obtain ⟨h1, h2⟩ := ih (processEvent f seed s e) hstep.1 hevts'
      exact ⟨h1, h2.trans hstep.2⟩

/-- C4: a `$/cancelRequest` for an id with no pending entry writes no
response and only logs the warning; for a live id it unsubscribes the
computation, removes the table entry, and — over any continuation of the
run that does not reuse the id — the messages written for that id are
exactly one `Request cancelled` error response and never a final success
response. -/
theorem cancel_request_behavior {π ρ : Type} (applyReducer : ρ → π → ρ)
    (seed : ρ) (s : DispatcherState π ρ) (id : Nat) :
    (s.subscriptions.get? id = none →
      processEvent applyReducer seed s (.recvCancel id) =
        { s with warnings := s.warnings ++
            ["$/cancelRequest for unknown request ID " ++ toString id] }) ∧
    (∀ pr, s.subscriptions.get? id = some pr →
      outputsFor id s.output = [] →
      ((processEvent applyReducer seed s (.recvCancel id)).subscriptions.get? id
          = none) ∧
      ∀ evts, (∀ ps, DispatchEvent.recvRequest id ps ∉ evts) →
        outputsFor id (runEvents applyReducer seed
            (processEvent applyReducer seed s (.recvCancel id)) evts).output
          = [.errorResponse id requestCancelledCode "Request cancelled"]) := by
  constructor
  · intro hnone
    simp [processEvent, hnone]
  · intro pr hsome hpast
    have hcancel : processEvent applyReducer seed s (.recvCancel id) =
        { s with
          subscriptions := s.subscriptions.delete id,
          output := s.output ++
            [.errorResponse id requestCancelledCode "Request cancelled"] } := by
      simp [processEvent, hsome]
    have hsub : (processEvent applyReducer seed s
        (.recvCancel id)).subscriptions.get? id = none := by
      rw [hcancel]
      exact JSMap.get?_delete_self s.subscriptions id
    refine ⟨hsub, ?_⟩
    intro evts hevts
    obtain ⟨-, h2⟩ := outputsFor_frozen applyReducer seed id evts
      (processEvent applyReducer seed s (.recvCancel id)) hsub hevts
    rw [h2, hcancel]
    rw [outputsFor_append, hpast]
    simp [outputsFor, OutMsg.msgId]

/-- C4 witness: a dispatcher with one live entry for id 1 and none for
id 2: cancelling 2 only warns, cancelling 1 yields exactly the error
response even after two further emission steps. -/
theorem cancel_request_behavior_witness :
    (({ subscriptions := [(1, ⟨[5], 0⟩)], output := [], warnings := [],
        streaming := true } : DispatcherState Nat Nat).subscriptions.get? 2
      = none) ∧
    ((processEvent Nat.add 0
        ({ subscriptions := [(1, ⟨[5], 0⟩)], output := [], warnings := [],
           streaming := true } : DispatcherState Nat Nat) (.recvCancel 2)).warnings
      = ["$/cancelRequest for unknown request ID 2"]) ∧
    (outputsFor 1 (runEvents Nat.add 0
        (processEvent Nat.add 0
          ({ subscriptions := [(1, ⟨[5], 0⟩)], output := [], warnings := [],
             streaming := true } : DispatcherState Nat Nat) (.recvCancel 1))
        [.tick 1, .tick 1]).output
      = [.errorResponse 1 requestCancelledCode "Request cancelled"]) := by
  have h := cancel_request_behavior Nat.add 0
    ({ subscriptions := [(1, ⟨[5], 0⟩)], output := [], warnings := [],
       streaming := true } : DispatcherState Nat Nat) 1
  have h2 := cancel_request_behavior Nat.add 0
    ({ subscriptions := [(1, ⟨[5], 0⟩)], output := [], warnings := [],
       streaming := true } : DispatcherState Nat Nat) 2
  refine ⟨rfl, ?_, ?_⟩
  · rw [h2.1 rfl]
    rfl
  · exact (h.2 ⟨[5], 0⟩ rfl rfl).2 [.tick 1, .tick 1]
      (by intro ps hmem; simp at hmem)
